import Mathlib

/-!
Verification development for the kb_host keyboard host program.

The definitions below are a shallow embedding of the Rust sources:
  * `src/protocol.rs`  — the binary wire protocol codec,
  * `src/threading.rs` — key state mutation, LED diffing/batching, the
    real-time loop skeleton,
  * `src/effects/mod.rs`, `src/effects/rainbow1.rs` — LED slots and the
    rotating-rainbow effect.

Machine bytes are modelled as `Nat` (overflow is noted where the source
can hit it); `f32` values are modelled as `ℚ` with Rust's truncating
remainder made explicit; panics are modelled by `Except`/`Option`
results.
-/

namespace KbHost

/-! ## Constants (src/protocol.rs lines 5-9, 42-43) -/

def KSK_PRESS : Nat := 0
def KSK_LAYER : Nat := 1
def KSK_RGB_SET : Nat := 2

def RAW_EPSIZE : Nat := 32

/-- The byte `0x6b` (ASCII k), first/third magic byte. -/
def K : Nat := 0x6b

/-- The byte `0x73` (ASCII s), second magic byte. -/
def S : Nat := 0x73

/-! ## Rational-number models of f32 operations -/

/-- Truncation of a rational toward zero, as Rust casts/`%` do. -/
def qtrunc (q : ℚ) : ℤ := if 0 ≤ q then ⌊q⌋ else ⌈q⌉

/-- Rust's `%` on floats (`fmod`): remainder with the dividend's sign,
obtained from truncating division. -/
def rrem (a b : ℚ) : ℚ := a - b * ((qtrunc (a / b) : ℤ) : ℚ)

/-- Mathematical modulus with result in `[0, b)` for `b > 0`; used to state
spec-side `mod` claims. -/
def qmod (a b : ℚ) : ℚ := a - b * ((⌊a / b⌋ : ℤ) : ℚ)

/-- Rust's saturating `as u8` cast applied to a float: clamp to `[0, 255]`
and truncate toward zero. -/
def f32AsU8 (q : ℚ) : Nat := (min 255 (max 0 (qtrunc q))).toNat

/-! ## Colors

`palette::Hsv` / `palette::Hsva` with ℚ components.  The HSV→RGB
conversion used by `push_color` lives in the external `palette` crate;
`hsvToRgb` is modelled from the spec: "derived from HSV by standard
conversion", the standard six-sector formula on a hue normalised into
`[0, 360)`. -/

structure Hsv where
  hue : ℚ
  saturation : ℚ
  value : ℚ
deriving DecidableEq, Repr

structure Hsva where
  hue : ℚ
  saturation : ℚ
  value : ℚ
  alpha : ℚ
deriving DecidableEq, Repr

/-- Modelled from the spec: standard HSV→RGB conversion (the external
`palette` crate's `IntoColor` instance), channels in `[0, 1]`. -/
def hsvToRgb (c : Hsv) : ℚ × ℚ × ℚ :=
  let h := qmod c.hue 360
  let chroma := c.value * c.saturation
  let hp := h / 60
  let x := chroma * (1 - |qmod hp 2 - 1|)
  let m := c.value - chroma
  let rgb :=
    if hp < 1 then (chroma, x, (0 : ℚ))
    else if hp < 2 then (x, chroma, 0)
    else if hp < 3 then (0, chroma, x)
    else if hp < 4 then (0, x, chroma)
    else if hp < 5 then (x, 0, chroma)
    else (chroma, 0, x)
  (rgb.1 + m, rgb.2.1 + m, rgb.2.2 + m)

/-- Model of `push_color` (src/protocol.rs lines 45-50): the three RGB
bytes of a color, each channel scaled by 255 and truncated by `as u8`. -/
def pushColorBytes (c : Hsv) : List Nat :=
  let rgb := hsvToRgb c
  [f32AsU8 (rgb.1 * 255), f32AsU8 (rgb.2.1 * 255), f32AsU8 (rgb.2.2 * 255)]

/-! ## Protocol messages (src/protocol.rs lines 11-40) -/

structure PressMessage where
  pressed : Bool
  keycode : Nat
  col : Nat
  row : Nat
deriving DecidableEq, Repr

structure LayerMessage where
  layer_state : Nat
deriving DecidableEq, Repr

/-- The field `colors` is a `HashMap<u8, Hsv>` in the source; it is
modelled as the association list the map's iteration yields (keys
pairwise distinct). -/
structure RgbSetMessage where
  colors : List (Nat × Hsv)
deriving DecidableEq, Repr

structure RgbSetFullMessage where
  color : Hsv
deriving DecidableEq, Repr

inductive ProtocolMessage where
  | Press : PressMessage → ProtocolMessage
  | Layer : LayerMessage → ProtocolMessage
  | RgbSet : RgbSetMessage → ProtocolMessage
  | RgbSetFull : RgbSetFullMessage → ProtocolMessage
deriving DecidableEq, Repr

/-- Model of `read_u16` (src/protocol.rs lines 52-54): non-standard nibble
packing, the second byte shifted left 4 bits OR-ed with the first byte. -/
def read_u16 (buf : List Nat) (beg_index : Nat) : Nat :=
  (buf.getD (beg_index + 1) 0) <<< 4 ||| buf.getD beg_index 0

/-- Model of `ProtocolMessage::read_buffer` (src/protocol.rs lines 57-77).
The Rust buffer is a fixed `[u8; 32]`, so reads past `size` always
succeed; the model reads with default 0 past the list's end. -/
def ProtocolMessage.read_buffer (buf : List Nat) (size : Nat) :
    Option ProtocolMessage :=
  if size < 4 ∨ buf.getD 0 0 ≠ K ∨ buf.getD 1 0 ≠ S ∨ buf.getD 2 0 ≠ K then
    none
  else
    let op := buf.getD 3 0 >>> 4
    let header_data := buf.getD 3 0 &&& 0b00001111
    if op = KSK_PRESS then
      some (ProtocolMessage.Press
        { pressed := header_data = 1
          keycode := read_u16 buf 4
          col := buf.getD 6 0
          row := buf.getD 7 0 })
    else if op = KSK_LAYER then
      some (ProtocolMessage.Layer { layer_state := buf.getD 4 0 })
    else
      none

/-- Model of `ProtocolMessage::send` (src/protocol.rs lines 79-107),
encoding part: the bytes handed to `device.write`, or `Except.error` for
the three fatal-abort branches.  The cast of the entry count to `u8` is
written `% 256` (the guard right above makes the reduction the
identity). -/
def ProtocolMessage.sendBytes (msg : ProtocolMessage) :
    Except String (List Nat) :=
  let buf : List Nat := [0x00, K, S, K]
  match msg with
  | ProtocolMessage.RgbSet m =>
      if m.colors.length > 255 then
        Except.error "cannot set this many rgb pixels at once!"
      else
        let buf := buf ++ [KSK_RGB_SET <<< 4 ||| m.colors.length % 256]
        let buf := buf ++ m.colors.flatMap fun e => e.1 :: pushColorBytes e.2
        if buf.length > RAW_EPSIZE + 1 then
          Except.error "message size exceeded RAW_EPSIZE"
        else
          Except.ok buf
  | ProtocolMessage.RgbSetFull m =>
      let buf := buf ++ [KSK_RGB_SET <<< 4] ++ pushColorBytes m.color
      if buf.length > RAW_EPSIZE + 1 then
        Except.error "message size exceeded RAW_EPSIZE"
      else
        Except.ok buf
  | _ => Except.error "this message cannot be sent!"

/-! ## Key state (src/threading.rs lines 19-26, 128-140) -/

/-- Per-key record; timestamps are abstract `Nat` instants. -/
structure KeyState where
  last_down : Option Nat := none
  last_pressed : Option Nat := none
  is_pressed : Bool := false
deriving DecidableEq, Repr

/-- The Press-message handling of `HIDThread::run` (src/threading.rs lines
128-140) restricted to the one touched matrix cell: if newly pressed,
record `last_down`; whenever pressed, record `last_pressed`; always store
the pressed flag. -/
def applyPress (key_state : KeyState) (pressed : Bool) (now : Nat) : KeyState :=
  let ks :=
    if pressed then
      { key_state with
        last_down :=
          if key_state.is_pressed then key_state.last_down else some now
        last_pressed := some now }
    else key_state
  { ks with is_pressed := pressed }

/-! ## LED slots and the rotating-rainbow effect
(src/effects/mod.rs, src/effects/rainbow1.rs) -/

/-- The part of `config::QMKKey` the effect reads: layout coordinates. -/
structure QMKKey where
  x : ℚ
  y : ℚ
deriving DecidableEq, Repr

/-- One LED slot (src/effects/mod.rs lines 4-8).  The derived Rust default
is the `palette` default color (black, full alpha) and no bound key. -/
structure LedState where
  color : Hsva := ⟨0, 0, 0, 1⟩
  key : Option QMKKey := none
deriving DecidableEq, Repr

/-- Hue degrees per second (src/effects/rainbow1.rs line 5). -/
def SPEED : ℚ := 36

/-- Hue degrees per key unit (src/effects/rainbow1.rs line 8). -/
def FACTOR : ℚ := 4

/-- The slot-coloring loop of `Rainbow1Effect::update` (src/effects/rainbow1.rs
lines 22-27).  The source calls `LedState::key`, which is
`self.key.unwrap()` (src/effects/mod.rs lines 10-14); a slot whose `key`
is `None` makes the whole update abort, modelled by `none`. -/
def rainbow1Slots (base_hue : ℚ) : List LedState → Option (List LedState)
  | [] => some []
  | led :: rest =>
    match led.key with
    | none => none
    | some k =>
      match rainbow1Slots base_hue rest with
      | none => none
      | some updated =>
        some ({ led with
                  color := ⟨rrem (base_hue + (k.x + k.y) * FACTOR) 360, 1, 1, 1⟩ }
              :: updated)

/-- Model of `Rainbow1Effect::update` (src/effects/rainbow1.rs lines 15-31):
color every slot from the current phase, then advance the phase by
`SPEED * delta` and reduce it with the truncating `%= 360.0`. -/
def rainbow1Update (base_hue delta : ℚ) (state : List LedState) :
    Option (List LedState × ℚ) :=
  match rainbow1Slots base_hue state with
  | none => none
  | some updated => some (updated, rrem (base_hue + SPEED * delta) 360)

/-! ## Frame diffing and batching (src/threading.rs lines 157-178) -/

/-- The premultiplication `Hsv::new(hue, saturation, value * alpha)` applied
to each changed color before insertion (src/threading.rs lines 163-167). -/
def hsvaFlatten (c : Hsva) : Hsv := ⟨c.hue, c.saturation, c.value * c.alpha⟩

/-- The diffing loop (src/threading.rs lines 159-170): the map from changed
LED indices to their new (premultiplied) colors, as the association list
in index order.  `pre` and `post` have equal length in the source
(`pre_state` is a clone); indices stay below the `u8` LED count, so the
`as u8` cast is the identity. -/
def diffColors (pre post : List LedState) : List (Nat × Hsv) :=
  (List.range post.length).filterMap fun idx =>
    if (post.getD idx {}).color ≠ (pre.getD idx {}).color then
      some (idx, hsvaFlatten (post.getD idx {}).color)
    else
      none

/-- Model of the slice iterator `.chunks(7)` (src/threading.rs line 172):
consecutive blocks of at most 7 entries, last possibly shorter, none
empty. -/
def chunks7 {α : Type} : List α → List (List α)
  | [] => []
  | e :: rest => (e :: rest.take 6) :: chunks7 (rest.drop 6)
termination_by l => l.length
decreasing_by
  simp only [List.length_cons, List.length_drop]
  omega

/-- One outbound `RgbSet` report per batch (src/threading.rs lines 172-178). -/
def frameReports (pre post : List LedState) : List ProtocolMessage :=
  (chunks7 (diffColors pre post)).map fun chunk => ProtocolMessage.RgbSet ⟨chunk⟩

/-! ## Loop skeleton and termination (src/threading.rs lines 121, 199-204)

The while-loop of `HIDThread::run` checks the cancellation flag once per
iteration; per-frame `RgbSet` send failures are discarded with `.ok()`
inside the iteration body, while the single terminal `RgbSetFull(black)`
send after the loop uses `.expect`, turning a write failure into an
abort.  The schedule below feeds the loop the flag value observed at each
iteration and whether the device write would succeed; real time is not
modelled. -/

structure IterIn where
  cancel : Bool
  frameOk : Bool
deriving DecidableEq, Repr

inductive LoopEvent where
  | iter (frameOk : Bool)
  | terminal (result : Except String (List Nat))

def LoopEvent.isTerminal : LoopEvent → Bool
  | LoopEvent.terminal _ => true
  | _ => false

/-- The all-black clear message built at src/threading.rs lines 199-201. -/
def blackFull : ProtocolMessage := ProtocolMessage.RgbSetFull ⟨⟨0, 0, 0⟩⟩

/-- Outcome of the terminal send (src/threading.rs lines 199-203): encoding
followed by the device write whose failure `.expect` escalates. -/
def terminalSendResult (writeOk : Bool) : Except String (List Nat) :=
  match ProtocolMessage.sendBytes blackFull with
  | Except.error e => Except.error e
  | Except.ok bytes =>
    if writeOk then Except.ok bytes
    else Except.error "failed to clear keyboard leds"

/-- The control skeleton of `HIDThread::run` (src/threading.rs lines
121-204): while the observed flag is clear, run one full iteration (its
frame sends non-fatal whatever their outcome) and continue; on the first
set flag, leave the loop and attempt the single terminal send.  An
exhausted schedule means cancellation was never observed. -/
def runLoop (termOk : Bool) : List IterIn → List LoopEvent
  | [] => []
  | s :: rest =>
    if s.cancel then [LoopEvent.terminal (terminalSendResult termOk)]
    else LoopEvent.iter s.frameOk :: runLoop termOk rest

/-! ## Helper lemmas -/

theorem length_pushColorBytes (c : Hsv) : (pushColorBytes c).length = 3 := rfl

theorem length_flatMap_entries (l : List (Nat × Hsv)) :
    (l.flatMap fun e => e.1 :: pushColorBytes e.2).length = 4 * l.length := by
  induction l with
  | nil => rfl
  | cons e rest ih =>
    rw [List.flatMap_cons, List.length_append, ih, List.length_cons,
      length_pushColorBytes, List.length_cons]
    omega

/-! ## Concrete buffers used by examples and witnesses -/

/-- The spec example inbound report, pressed variant, padded to 32 bytes. -/
def pressedExampleBuf : List Nat :=
  [0x6b, 0x73, 0x6b, 0x01, 0x01, 0x00, 0x03, 0x05] ++ List.replicate 24 0

/-- The spec example inbound report with byte 3 zeroed (released variant). -/
def releasedExampleBuf : List Nat :=
  [0x6b, 0x73, 0x6b, 0x00, 0x01, 0x00, 0x03, 0x05] ++ List.replicate 24 0

/-- A report declaring only 4 valid bytes while bytes 4..7 hold data. -/
def shortPressBuf : List Nat :=
  [0x6b, 0x73, 0x6b, 0x01, 0x02, 0x01, 0x09, 0x0a] ++ List.replicate 24 0

/-! ## Claim theorems -/

/-- C1: the 32-byte buffer beginning `6b 73 6b 01 01 00 03 05` with valid
length 8 decodes to `Press{pressed := true, keycode := 1, col := 3,
row := 5}`; with byte 3 zeroed it decodes to the same message with
`pressed := false`; and every accepted Press report carries
`keycode = byte 4 OR (byte 5 <<< 4)`, `col = byte 6`, `row = byte 7`. -/
theorem press_decode_examples_and_nibble_packing :
    ProtocolMessage.read_buffer pressedExampleBuf 8 =
      some (ProtocolMessage.Press
        { pressed := true, keycode := 1, col := 3, row := 5 }) ∧
    ProtocolMessage.read_buffer releasedExampleBuf 8 =
      some (ProtocolMessage.Press
        { pressed := false, keycode := 1, col := 3, row := 5 }) ∧
    ∀ buf size m,
      ProtocolMessage.read_buffer buf size = some (ProtocolMessage.Press m) →
        m.keycode = buf.getD 4 0 ||| (buf.getD 5 0) <<< 4 ∧
        m.col = buf.getD 6 0 ∧ m.row = buf.getD 7 0 := by
  refine ⟨by decide, by decide, ?_⟩
  intro buf size m h
  simp only [ProtocolMessage.read_buffer] at h
  split at h
  · exact absurd h (by simp)
  · split at h
    · simp only [Option.some.injEq] at h
      cases h with
      | refl => simp [read_u16, Nat.lor_comm]
    · split at h
      · exact absurd h (by simp)
      · exact absurd h (by simp)

/-- Witness for C1: the packing equations instantiated on the example
pressed report. -/
theorem press_decode_nibble_packing_witness :
    (PressMessage.mk true 1 3 5).keycode =
      pressedExampleBuf.getD 4 0 ||| (pressedExampleBuf.getD 5 0) <<< 4 ∧
    (PressMessage.mk true 1 3 5).col = pressedExampleBuf.getD 6 0 ∧
    (PressMessage.mk true 1 3 5).row = pressedExampleBuf.getD 7 0 :=
  press_decode_examples_and_nibble_packing.2.2 pressedExampleBuf 8
    (PressMessage.mk true 1 3 5) (by decide)

/-- C5: decode yields nothing exactly when the valid length is below 4, a
magic byte mismatches `6b 73 6b`, or the high nibble of byte 3 is an
opcode other than 0 (Press) or 1 (Layer); in every other case it yields a
message. -/
theorem read_buffer_none_iff_invalid (buf : List Nat) (size : Nat) :
    ProtocolMessage.read_buffer buf size = none ↔
      size < 4 ∨ buf.getD 0 0 ≠ 0x6b ∨ buf.getD 1 0 ≠ 0x73 ∨ buf.getD 2 0 ≠ 0x6b ∨
        (buf.getD 3 0 >>> 4 ≠ 0 ∧ buf.getD 3 0 >>> 4 ≠ 1) := by
  simp only [ProtocolMessage.read_buffer, K, S, KSK_PRESS, KSK_LAYER]
  split
  next h => simp only [true_iff]; tauto
  next h =>
    push_neg at h
    have hs := Nat.not_lt.mpr h.1
    split
    next hop => simp only [reduceCtorEq, false_iff]; tauto
    next hop =>
      split
      next hop2 => simp only [reduceCtorEq, false_iff]; tauto
      next hop2 => simp only [true_iff]; tauto

/-- Witness for C5: the criterion instantiated on the example report. -/
theorem read_buffer_none_iff_invalid_witness :
    ProtocolMessage.read_buffer pressedExampleBuf 8 = none ↔
      8 < 4 ∨ pressedExampleBuf.getD 0 0 ≠ 0x6b ∨
        pressedExampleBuf.getD 1 0 ≠ 0x73 ∨ pressedExampleBuf.getD 2 0 ≠ 0x6b ∨
        (pressedExampleBuf.getD 3 0 >>> 4 ≠ 0 ∧
          pressedExampleBuf.getD 3 0 >>> 4 ≠ 1) :=
  read_buffer_none_iff_invalid pressedExampleBuf 8

/-- C10: decode checks only `4 ≤ size` beyond the magic and opcode; for any
buffer declaring between 4 and 7 valid bytes with valid magic and the
Press opcode, the Press fields are still taken from fixed byte positions
4 through 7 (beyond the declared valid portion), and the Layer payload is
read from position 4 whenever at least 4 bytes are declared valid. -/
theorem read_buffer_ignores_declared_length :
    (∀ (buf : List Nat) (size : Nat), 4 ≤ size → size ≤ 7 →
      buf.getD 0 0 = 0x6b → buf.getD 1 0 = 0x73 → buf.getD 2 0 = 0x6b →
      buf.getD 3 0 >>> 4 = KSK_PRESS →
      ProtocolMessage.read_buffer buf size = some (ProtocolMessage.Press
        { pressed := buf.getD 3 0 &&& 0b00001111 = 1
          keycode := read_u16 buf 4
          col := buf.getD 6 0
          row := buf.getD 7 0 })) ∧
    (∀ (buf : List Nat) (size : Nat), 4 ≤ size →
      buf.getD 0 0 = 0x6b → buf.getD 1 0 = 0x73 → buf.getD 2 0 = 0x6b →
      buf.getD 3 0 >>> 4 = KSK_LAYER →
      ProtocolMessage.read_buffer buf size =
        some (ProtocolMessage.Layer { layer_state := buf.getD 4 0 })) := by
  constructor
  · intro buf size h4 h7 h0 h1 h2 hop
    simp only [KSK_PRESS] at hop
    simp only [List.getD_eq_getElem?_getD] at h0 h1 h2 hop
    simp [ProtocolMessage.read_buffer, K, S, KSK_PRESS, h0, h1, h2, hop,
      Nat.not_lt.mpr h4]
  · intro buf size h4 h0 h1 h2 hop
    simp only [KSK_LAYER] at hop
    simp only [List.getD_eq_getElem?_getD] at h0 h1 h2 hop
    simp [ProtocolMessage.read_buffer, K, S, KSK_PRESS, KSK_LAYER, h0, h1, h2, hop,
      Nat.not_lt.mpr h4]

/-- Witness for C10: a report declaring 4 valid bytes decodes to a Press
whose payload comes from bytes 4..7, past the declared valid portion. -/
theorem read_buffer_ignores_declared_length_witness :
    ProtocolMessage.read_buffer shortPressBuf 4 = some (ProtocolMessage.Press
      { pressed := shortPressBuf.getD 3 0 &&& 0b00001111 = 1
        keycode := read_u16 shortPressBuf 4
        col := shortPressBuf.getD 6 0
        row := shortPressBuf.getD 7 0 }) :=
  read_buffer_ignores_declared_length.1 shortPressBuf 4 (by decide) (by decide)
    (by decide) (by decide) (by decide) (by decide)

/-- C6: encoding a Press or a Layer message always takes a fatal-abort
branch; an RgbSet with more than 7 entries (whose serialized form would
exceed the 33-byte report capacity) likewise aborts rather than
returning; an RgbSet with at most 7 entries encodes successfully within
capacity. -/
theorem send_directionality_and_capacity :
    (∀ p, ProtocolMessage.sendBytes (ProtocolMessage.Press p) =
      Except.error "this message cannot be sent!") ∧
    (∀ l, ProtocolMessage.sendBytes (ProtocolMessage.Layer l) =
      Except.error "this message cannot be sent!") ∧
    (∀ m : RgbSetMessage, 7 < m.colors.length →
      ∃ e, ProtocolMessage.sendBytes (ProtocolMessage.RgbSet m) =
        Except.error e) ∧
    (∀ m : RgbSetMessage, m.colors.length ≤ 7 →
      ∃ bytes, ProtocolMessage.sendBytes (ProtocolMessage.RgbSet m) =
        Except.ok bytes ∧ bytes.length ≤ RAW_EPSIZE + 1) := by
  refine ⟨fun p => rfl, fun l => rfl, ?_, ?_⟩
  · intro m hm
    simp only [ProtocolMessage.sendBytes]
    split
    · exact ⟨_, rfl⟩
    · rw [if_pos]
      · exact ⟨_, rfl⟩
      · simp only [List.length_append, List.length_cons, List.length_nil,
          length_flatMap_entries, RAW_EPSIZE]
        omega
  · intro m hm
    simp only [ProtocolMessage.sendBytes]
    rw [if_neg (by omega), if_neg]
    · refine ⟨_, rfl, ?_⟩
      simp only [List.length_append, List.length_cons, List.length_nil,
        length_flatMap_entries, RAW_EPSIZE]
      omega
    · simp only [List.length_append, List.length_cons, List.length_nil,
        length_flatMap_entries, RAW_EPSIZE]
      omega

/-- Witness for C6: an 8-entry RgbSet aborts while the empty RgbSet encodes
within capacity. -/
theorem send_capacity_witness :
    (∃ e, ProtocolMessage.sendBytes
      (ProtocolMessage.RgbSet ⟨List.replicate 8 (0, ⟨0, 0, 0⟩)⟩) =
        Except.error e) ∧
    (∃ bytes, ProtocolMessage.sendBytes (ProtocolMessage.RgbSet ⟨[]⟩) =
      Except.ok bytes ∧ bytes.length ≤ RAW_EPSIZE + 1) :=
  ⟨send_directionality_and_capacity.2.2.1 ⟨List.replicate 8 (0, ⟨0, 0, 0⟩)⟩
      (by decide),
    send_directionality_and_capacity.2.2.2 ⟨[]⟩ (by decide)⟩

/-- C7: encoding `RgbSetFull` with the black color produces exactly the
report-id byte 0, the three magic bytes, the opcode/count byte `0x20`
(opcode 2 high nibble, zero count low nibble) and three zero color bytes
with no index byte. -/
theorem sendBytes_rgbSetFull_black :
    ProtocolMessage.sendBytes (ProtocolMessage.RgbSetFull ⟨⟨0, 0, 0⟩⟩) =
      Except.ok [0x00, 0x6b, 0x73, 0x6b, 0x20, 0x00, 0x00, 0x00] := by
  norm_num [ProtocolMessage.sendBytes, pushColorBytes, hsvToRgb, qmod, f32AsU8,
    qtrunc, RAW_EPSIZE, KSK_RGB_SET, K, S, Nat.shiftLeft_eq]

/-- C3: per Press event at one position, `last_down` is written only when a
not-pressed key becomes pressed, a repeated `pressed = true` leaves it
unchanged, `last_pressed` is written on every pressed event, and
`is_pressed` always ends up equal to the event's flag. -/
theorem apply_press_transition_rules (ks : KeyState) (pressed : Bool) (now : Nat) :
    (applyPress ks pressed now).is_pressed = pressed ∧
    (pressed = true → ks.is_pressed = false →
      (applyPress ks pressed now).last_down = some now) ∧
    (pressed = true → ks.is_pressed = true →
      (applyPress ks pressed now).last_down = ks.last_down) ∧
    (pressed = false → (applyPress ks pressed now).last_down = ks.last_down) ∧
    (pressed = true → (applyPress ks pressed now).last_pressed = some now) ∧
    (pressed = false →
      (applyPress ks pressed now).last_pressed = ks.last_pressed) := by
  cases pressed <;> cases h : ks.is_pressed <;> simp [applyPress, h]

/-- Witness for C3: a fresh key pressed at instant 5. -/
theorem apply_press_transition_witness :
    (applyPress {} true 5).is_pressed = true ∧
    (applyPress {} true 5).last_down = some 5 ∧
    (applyPress {} true 5).last_pressed = some 5 :=
  ⟨(apply_press_transition_rules {} true 5).1,
    (apply_press_transition_rules {} true 5).2.1 rfl rfl,
    (apply_press_transition_rules {} true 5).2.2.2.2.1 rfl⟩

/-- Counterexample for C2: on a one-slot list whose slot has no bound key,
the rotating-rainbow update does not return at all (the source unwraps
the absent key and aborts), so the slot is not "left unmodified". -/
theorem rainbow1_unbound_slot_aborts :
    rainbow1Update 0 1 [{ color := ⟨0, 0, 0, 1⟩, key := none }] = none := rfl

theorem rainbow1Slots_none_iff (base : ℚ) (state : List LedState) :
    rainbow1Slots base state = none ↔ ∃ led ∈ state, led.key = none := by
  induction state with
  | nil => simp [rainbow1Slots]
  | cons led rest ih =>
    simp only [rainbow1Slots]
    cases h : led.key with
    | none => simp [h]
    | some k =>
      cases hr : rainbow1Slots base rest with
      | none =>
        simp only [hr, true_iff] at ih
        simp [h, hr, ih]
      | some updated =>
        simp only [hr, reduceCtorEq, false_iff] at ih
        simp only [h, reduceCtorEq, false_iff, List.mem_cons]
        push_neg
        push_neg at ih
        intro led2 hmem
        rcases hmem with rfl | hmem
        · simp [h]
        · exact ih led2 hmem

theorem rainbow1Slots_some_recolors (base : ℚ) (state out : List LedState)
    (h : rainbow1Slots base state = some out) :
    List.Forall₂ (fun led uled : LedState => ∃ k, led.key = some k ∧
      uled = { led with
        color := ⟨rrem (base + (k.x + k.y) * FACTOR) 360, 1, 1, 1⟩ })
      state out := by
  induction state generalizing out with
  | nil =>
    simp only [rainbow1Slots, Option.some.injEq] at h
    subst h
    exact List.Forall₂.nil
  | cons led rest ih =>
    rw [rainbow1Slots] at h
    split at h
    · exact absurd h (by simp)
    · rename_i k hk
      split at h
      · exact absurd h (by simp)
      · rename_i updated hr
        simp only [Option.some.injEq] at h
        subst h
        exact List.Forall₂.cons ⟨k, hk, rfl⟩ (ih updated hr)

/-- C2 amended: the update aborts (models the `Option::unwrap` panic on an
unbound slot) exactly when some slot has no bound key — it never returns
with an unbound slot left at its default color — and whenever it does
return, every slot has a bound key and receives the freshly computed
rainbow color. -/
theorem rainbow1_update_none_iff_unbound_slot (base delta : ℚ)
    (state : List LedState) :
    (rainbow1Update base delta state = none ↔ ∃ led ∈ state, led.key = none) ∧
    ∀ out : List LedState × ℚ, rainbow1Update base delta state = some out →
      List.Forall₂ (fun led uled : LedState => ∃ k, led.key = some k ∧
        uled = { led with
          color := ⟨rrem (base + (k.x + k.y) * FACTOR) 360, 1, 1, 1⟩ })
        state out.1 := by
  constructor
  · rw [← rainbow1Slots_none_iff base state]
    unfold rainbow1Update
    cases h : rainbow1Slots base state <;> simp [h]
  · intro out hout
    unfold rainbow1Update at hout
    cases hs : rainbow1Slots base state with
    | none => rw [hs] at hout; exact absurd hout (by simp)
    | some updated =>
      rw [hs] at hout
      simp only [Option.some.injEq] at hout
      subst hout
      exact rainbow1Slots_some_recolors base state updated hs

/-- Witness for C2 amended: the abort criterion on the one unbound slot,
and the success path recoloring one slot bound to the key at `(1, 2)`
with phase 0 (hue `(0 + (1 + 2) * 4) % 360 = 12`). -/
theorem rainbow1_update_none_iff_witness :
    (rainbow1Update 0 1 [{ color := ⟨0, 0, 0, 1⟩, key := none }] = none ↔
      ∃ led ∈ [({ color := ⟨0, 0, 0, 1⟩, key := none } : LedState)],
        led.key = none) ∧
    List.Forall₂ (fun led uled : LedState => ∃ k, led.key = some k ∧
      uled = { led with
        color := ⟨rrem (0 + (k.x + k.y) * FACTOR) 360, 1, 1, 1⟩ })
      [{ color := ⟨0, 0, 0, 1⟩, key := some ⟨1, 2⟩ }]
      [{ color := ⟨12, 1, 1, 1⟩, key := some ⟨1, 2⟩ }] :=
  ⟨(rainbow1_update_none_iff_unbound_slot 0 1 _).1,
    (rainbow1_update_none_iff_unbound_slot 0 1
        [{ color := ⟨0, 0, 0, 1⟩, key := some ⟨1, 2⟩ }]).2
      ([{ color := ⟨12, 1, 1, 1⟩, key := some ⟨1, 2⟩ }],
        rrem (0 + SPEED * 1) 360)
      (by norm_num [rainbow1Update, rainbow1Slots, rrem, qtrunc, FACTOR,
        Hsva.mk.injEq])⟩

/-! ## Rational remainder lemmas for the hue computation -/

theorem qtrunc_eq_floor {q : ℚ} (h : 0 ≤ q) : qtrunc q = ⌊q⌋ := by
  simp [qtrunc, h]

theorem rrem_eq_qmod {a b : ℚ} (ha : 0 ≤ a) (hb : 0 < b) :
    rrem a b = qmod a b := by
  unfold rrem qmod
  rw [qtrunc_eq_floor (div_nonneg ha hb.le)]

theorem qmod_nonneg_lt {a b : ℚ} (hb : 0 < b) :
    0 ≤ qmod a b ∧ qmod a b < b := by
  have h1 : qmod a b = b * Int.fract (a / b) := by
    unfold qmod Int.fract
    field_simp
  refine ⟨h1 ▸ mul_nonneg hb.le (Int.fract_nonneg _), ?_⟩
  rw [h1]
  calc b * Int.fract (a / b) < b * 1 :=
        mul_lt_mul_of_pos_left (Int.fract_lt_one _) hb
    _ = b := mul_one b

theorem rainbow1Slots_qmod (base : ℚ) (state : List LedState) (hbase : 0 ≤ base)
    (hkeys : ∀ led ∈ state, ∃ k, led.key = some k ∧ 0 ≤ k.x ∧ 0 ≤ k.y) :
    ∃ out, rainbow1Slots base state = some out ∧
      List.Forall₂ (fun led uled : LedState => ∃ k, led.key = some k ∧
        uled.key = led.key ∧
        uled.color = ⟨qmod (base + (k.x + k.y) * FACTOR) 360, 1, 1, 1⟩ ∧
        0 ≤ uled.color.hue ∧ uled.color.hue < 360) state out := by
  induction state with
  | nil => exact ⟨[], rfl, List.Forall₂.nil⟩
  | cons led rest ih =>
    obtain ⟨k, hk, hkx, hky⟩ := hkeys led (List.mem_cons_self _ _)
    obtain ⟨out, hout, hfa⟩ := ih fun l hl => hkeys l (List.mem_cons_of_mem _ hl)
    have hfac : (0 : ℚ) ≤ FACTOR := by norm_num [FACTOR]
    have harg : 0 ≤ base + (k.x + k.y) * FACTOR :=
      add_nonneg hbase (mul_nonneg (add_nonneg hkx hky) hfac)
    have hrr := rrem_eq_qmod harg (show (0:ℚ) < 360 by norm_num)
    have hb := qmod_nonneg_lt (a := base + (k.x + k.y) * FACTOR)
      (b := 360) (by norm_num)
    refine ⟨{ led with
        color := ⟨qmod (base + (k.x + k.y) * FACTOR) 360, 1, 1, 1⟩ } :: out,
      ?_, List.Forall₂.cons ⟨k, hk, rfl, rfl, hb.1, hb.2⟩ hfa⟩
    simp [rainbow1Slots, hk, hout, hrr]

/-- C8: in one tick starting from a nonnegative phase with nonnegative
delta and nonnegative key coordinates, every slot with a bound key at
`(x, y)` receives hue `(phase + (x + y) * FACTOR) mod 360` (a value in
`[0, 360)`) with full saturation, value and alpha, and the returned phase
is `(phase + SPEED * delta) mod 360`, wrapped into `[0, 360)`. -/
theorem rainbow1_tick_hue_formula (phase delta : ℚ) (state : List LedState)
    (hphase : 0 ≤ phase) (hdelta : 0 ≤ delta)
    (hkeys : ∀ led ∈ state, ∃ k, led.key = some k ∧ 0 ≤ k.x ∧ 0 ≤ k.y) :
    ∃ out : List LedState × ℚ, rainbow1Update phase delta state = some out ∧
      List.Forall₂ (fun led uled : LedState => ∃ k, led.key = some k ∧
        uled.key = led.key ∧
        uled.color = ⟨qmod (phase + (k.x + k.y) * FACTOR) 360, 1, 1, 1⟩ ∧
        0 ≤ uled.color.hue ∧ uled.color.hue < 360) state out.1 ∧
      out.2 = qmod (phase + SPEED * delta) 360 ∧ 0 ≤ out.2 ∧ out.2 < 360 := by
  obtain ⟨slots, hs, hfa⟩ := rainbow1Slots_qmod phase state hphase hkeys
  have harg : 0 ≤ phase + SPEED * delta :=
    add_nonneg hphase (mul_nonneg (by norm_num [SPEED]) hdelta)
  have hrr := rrem_eq_qmod harg (show (0:ℚ) < 360 by norm_num)
  have hb := qmod_nonneg_lt (a := phase + SPEED * delta) (b := 360) (by norm_num)
  refine ⟨(slots, qmod (phase + SPEED * delta) 360), ?_, hfa, rfl, hb.1, hb.2⟩
  simp [rainbow1Update, hs, hrr]

/-- Witness for C8: one slot bound to the key at `(1, 2)`, phase 0,
delta 1. -/
theorem rainbow1_tick_hue_formula_witness :
    ∃ out : List LedState × ℚ,
      rainbow1Update 0 1 [{ color := ⟨0, 0, 0, 1⟩, key := some ⟨1, 2⟩ }] =
        some out ∧
      List.Forall₂ (fun led uled : LedState => ∃ k, led.key = some k ∧
        uled.key = led.key ∧
        uled.color = ⟨qmod (0 + (k.x + k.y) * FACTOR) 360, 1, 1, 1⟩ ∧
        0 ≤ uled.color.hue ∧ uled.color.hue < 360)
        [{ color := ⟨0, 0, 0, 1⟩, key := some ⟨1, 2⟩ }] out.1 ∧
      out.2 = qmod (0 + SPEED * 1) 360 ∧ 0 ≤ out.2 ∧ out.2 < 360 :=
  rainbow1_tick_hue_formula 0 1 [{ color := ⟨0, 0, 0, 1⟩, key := some ⟨1, 2⟩ }]
    (by decide) (by decide)
    (by
      intro led hled
      rw [List.mem_singleton] at hled
      subst hled
      exact ⟨⟨1, 2⟩, rfl, by decide, by decide⟩)

/-! ## Chunking lemmas for frame batching -/

theorem chunks7_flatten {α : Type} (l : List α) : (chunks7 l).flatten = l := by
  cases l with
  | nil => simp [chunks7]
  | cons e rest =>
    rw [chunks7]
    simp only [List.flatten_cons]
    rw [chunks7_flatten (rest.drop 6)]
    simp [List.take_append_drop]
termination_by l.length
decreasing_by simp [List.length_drop]; omega

theorem chunks7_length {α : Type} (l : List α) :
    (chunks7 l).length = (l.length + 6) / 7 := by
  cases l with
  | nil => simp [chunks7]
  | cons e rest =>
    rw [chunks7]
    simp only [List.length_cons]
    rw [chunks7_length (rest.drop 6)]
    simp only [List.length_drop]
    omega
termination_by l.length
decreasing_by simp [List.length_drop]; omega

theorem chunks7_mem_length_fuel {α : Type} (n : Nat) (l c : List α)
    (hn : l.length ≤ n) (hc : c ∈ chunks7 l) :
    0 < c.length ∧ c.length ≤ 7 := by
  induction n generalizing l c with
  | zero =>
    have : l = [] := List.length_eq_zero.mp (Nat.le_zero.mp hn)
    subst this
    simp [chunks7] at hc
  | succ n ih =>
    cases l with
    | nil => simp [chunks7] at hc
    | cons e rest =>
      rw [chunks7] at hc
      rcases List.mem_cons.mp hc with rfl | hmem
      · simp only [List.length_cons, List.length_take]
        omega
      · refine ih (rest.drop 6) c ?_ hmem
        simp only [List.length_cons] at hn
        simp only [List.length_drop]
        omega

theorem chunks7_mem_length {α : Type} (l c : List α) (hc : c ∈ chunks7 l) :
    0 < c.length ∧ c.length ≤ 7 :=
  chunks7_mem_length_fuel l.length l c (Nat.le_refl _) hc

theorem map_fst_filterMap_if (l : List Nat) (p : Nat → Prop) [DecidablePred p]
    (g : Nat → Hsv) :
    (l.filterMap fun idx => if p idx then some (idx, g idx) else none).map
        Prod.fst =
      l.filter fun idx => p idx := by
  induction l with
  | nil => rfl
  | cons a l ih => by_cases h : p a <;> simp [h, ih]

theorem diffColors_fst (pre post : List LedState) :
    (diffColors pre post).map Prod.fst =
      (List.range post.length).filter
        fun idx => (post.getD idx {}).color ≠ (pre.getD idx {}).color := by
  exact map_fst_filterMap_if _ _ _

/-- C4: with `N` changed LED indices, batching produces exactly
`ceil(N / 7) = (N + 6) / 7` RgbSet reports, every batch is nonempty with
at most 7 entries, concatenating the batches restores the diff exactly
(each changed index in exactly one report), the changed indices are
pairwise distinct, and they are precisely the indices whose post-update
color differs from the snapshot. -/
theorem frame_diff_batching (pre post : List LedState) :
    (frameReports pre post).length = ((diffColors pre post).length + 6) / 7 ∧
    (∀ c ∈ chunks7 (diffColors pre post), 0 < c.length ∧ c.length ≤ 7) ∧
    (chunks7 (diffColors pre post)).flatten = diffColors pre post ∧
    ((diffColors pre post).map Prod.fst).Nodup ∧
    (diffColors pre post).map Prod.fst =
      (List.range post.length).filter
        (fun idx => (post.getD idx {}).color ≠ (pre.getD idx {}).color) := by
  refine ⟨?_, fun c hc => chunks7_mem_length _ c hc, chunks7_flatten _, ?_,
    diffColors_fst pre post⟩
  · rw [frameReports, List.length_map, chunks7_length]
  · rw [diffColors_fst]
    exact List.Nodup.filter _ (List.nodup_range _)

/-- A one-slot pre-frame state for the C4 witness. -/
def diffPreExample : List LedState := [{ color := ⟨0, 0, 0, 1⟩, key := none }]

/-- The same slot recolored by a frame, for the C4 witness. -/
def diffPostExample : List LedState := [{ color := ⟨5, 1, 1, 1⟩, key := none }]

theorem diffColors_example :
    diffColors diffPreExample diffPostExample = [(0, ⟨5, 1, 1⟩)] := by
  norm_num [diffPreExample, diffPostExample, diffColors, hsvaFlatten,
    List.range_succ, Hsva.mk.injEq, Hsv.mk.injEq, List.filterMap_cons,
    List.getElem?_cons_zero, Option.getD_some]

/-- Witness for C4: the single one-entry batch of the example diff. -/
theorem frame_diff_batching_witness :
    0 < (diffColors diffPreExample diffPostExample).length ∧
    (diffColors diffPreExample diffPostExample).length ≤ 7 :=
  (frame_diff_batching diffPreExample diffPostExample).2.1
    (diffColors diffPreExample diffPostExample)
    (by rw [diffColors_example]; simp [chunks7])

/-! ## Loop termination lemmas -/

theorem sendBytes_black :
    ProtocolMessage.sendBytes blackFull =
      Except.ok [0x00, 0x6b, 0x73, 0x6b, 0x20, 0x00, 0x00, 0x00] := by
  norm_num [blackFull, ProtocolMessage.sendBytes, pushColorBytes, hsvToRgb, qmod,
    f32AsU8, qtrunc, RAW_EPSIZE, KSK_RGB_SET, K, S, Nat.shiftLeft_eq]

theorem runLoop_cancel_shape (sched : List IterIn) (termOk : Bool) (k : Nat)
    (hk : k < sched.length)
    (hbefore : ∀ i, i < k → (sched.getD i ⟨false, false⟩).cancel = false)
    (hcancel : (sched.getD k ⟨false, false⟩).cancel = true) :
    runLoop termOk sched =
      ((sched.take k).map fun s => LoopEvent.iter s.frameOk) ++
        [LoopEvent.terminal (terminalSendResult termOk)] := by
  induction sched generalizing k with
  | nil => exact absurd hk (by simp)
  | cons s rest ih =>
    cases k with
    | zero =>
      simp only [List.getD_cons_zero] at hcancel
      simp [runLoop, hcancel]
    | succ k =>
      have hs : s.cancel = false := by
        have := hbefore 0 (Nat.succ_pos k)
        simpa using this
      simp only [List.getD_cons_succ] at hcancel
      rw [runLoop]
      simp only [hs, Bool.false_eq_true, if_false, List.take_succ_cons,
        List.map_cons, List.cons_append]
      congr 1
      refine ih k (by simpa using hk) ?_ hcancel
      intro i hi
      have := hbefore (i + 1) (by omega)
      simpa using this

/-- C9: when the loop observes the cancellation flag at step `k` (all
earlier observations clear), its event trace is exactly the `k` full
iterations before the flag — whatever their frame-send outcomes —
followed by one single terminal send and nothing else; the terminal send
carries the encoded RgbSetFull(black) report and a device-write failure
surfaces as an error (the `.expect` abort) instead of being discarded
like the per-frame sends. -/
theorem loop_cancel_single_terminal_send (sched : List IterIn) (termOk : Bool)
    (k : Nat) (hk : k < sched.length)
    (hbefore : ∀ i, i < k → (sched.getD i ⟨false, false⟩).cancel = false)
    (hcancel : (sched.getD k ⟨false, false⟩).cancel = true) :
    runLoop termOk sched =
      ((sched.take k).map fun s => LoopEvent.iter s.frameOk) ++
        [LoopEvent.terminal (terminalSendResult termOk)] ∧
    ((runLoop termOk sched).filter LoopEvent.isTerminal).length = 1 ∧
    terminalSendResult true =
      Except.ok [0x00, 0x6b, 0x73, 0x6b, 0x20, 0x00, 0x00, 0x00] ∧
    terminalSendResult false =
      Except.error "failed to clear keyboard leds" := by
  have hshape := runLoop_cancel_shape sched termOk k hk hbefore hcancel
  refine ⟨hshape, ?_, ?_, ?_⟩
  · rw [hshape, List.filter_append]
    have hnil : List.filter LoopEvent.isTerminal
        ((sched.take k).map fun s => LoopEvent.iter s.frameOk) = [] :=
      List.filter_eq_nil_iff.mpr (by
        intro a ha
        obtain ⟨b, _, rfl⟩ := List.mem_map.mp ha
        simp [LoopEvent.isTerminal])
    rw [hnil]
    simp [LoopEvent.isTerminal]
  · rw [terminalSendResult, sendBytes_black]
    rfl
  · rw [terminalSendResult, sendBytes_black]
    rfl

/-- Witness for C9: a two-step schedule whose second observation is the
cancellation. -/
theorem loop_cancel_single_terminal_send_witness :
    runLoop true [⟨false, true⟩, ⟨true, false⟩] =
      (([⟨false, true⟩, ⟨true, false⟩].take 1).map
        fun s : IterIn => LoopEvent.iter s.frameOk) ++
        [LoopEvent.terminal (terminalSendResult true)] ∧
    ((runLoop true [⟨false, true⟩, ⟨true, false⟩]).filter
      LoopEvent.isTerminal).length = 1 ∧
    terminalSendResult true =
      Except.ok [0x00, 0x6b, 0x73, 0x6b, 0x20, 0x00, 0x00, 0x00] ∧
    terminalSendResult false =
      Except.error "failed to clear keyboard leds" :=
  loop_cancel_single_terminal_send [⟨false, true⟩, ⟨true, false⟩] true 1
    (by decide) (by decide) (by decide)

end KbHost
